import Mathlib

/-!
Verification of the SSE streaming client (`front/src/lib/sse-client.ts`).

Strings are modelled as `List Char`.  The `JSON.parse` / `JSON.stringify`
builtins are external to the repository; `dispatchMessage` therefore takes the
parse function as a parameter, and a concrete executable model
(`jsonParseImpl`, `jsonStringify`) is provided for evaluating the development
on concrete inputs.
-/

/-- Runtime JSON values, the possible results of the `JSON.parse` builtin. -/
inductive JsonValue where
  | null
  | bool (b : Bool)
  | num (n : Int)
  | str (s : List Char)
  | arr (xs : List JsonValue)
  | obj (fs : List (List Char × JsonValue))

/-- JavaScript truthiness of a runtime value. -/
def truthy : JsonValue → Bool
  | .null => false
  | .bool b => b
  | .num n => n ≠ 0
  | .str s => s ≠ []
  | .arr _ => true
  | .obj _ => true

/-- First binding of a key in an object's field list (JSON.parse never
produces duplicate keys, so first-match equals the JS property). -/
def lookupField : List (List Char × JsonValue) → List Char → Option JsonValue
  | [], _ => none
  | (k, v) :: fs, key => if k = key then some v else lookupField fs key

/-- JavaScript property read `v?.key`: `undefined` (here `none`) on anything
but an object with that key. -/
def getField : JsonValue → List Char → Option JsonValue
  | .obj fs, key => lookupField fs key
  | _, _ => none

/-- JavaScript `typeof v === "object"`: true for objects, arrays and `null`. -/
def typeofObject : JsonValue → Bool
  | .null => true
  | .arr _ => true
  | .obj _ => true
  | _ => false

/-! Concrete model of the `JSON.parse` builtin (recursive descent with fuel).
It covers the fragment used at concrete inputs in this development: objects,
arrays, strings with simple escapes, integer numbers, `true`/`false`/`null`;
it fails on anything else, as `JSON.parse` throws on malformed input. -/

/-- JSON whitespace. -/
def isJsonWs (c : Char) : Bool :=
  c = ' ' || c = '\n' || c = '\t' || c = '\r'

/-- Skip leading JSON whitespace. -/
def skipWs : List Char → List Char
  | [] => []
  | c :: cs => if isJsonWs c then skipWs cs else c :: cs

/-- Parse the body of a JSON string after the opening quote; returns the
decoded contents and the remainder after the closing quote. -/
def parseStringBody : Nat → List Char → Option (List Char × List Char)
  | 0, _ => none
  | _, [] => none
  | fuel + 1, c :: cs =>
    if c = '"' then some ([], cs)
    else if c = '\\' then
      match cs with
      | [] => none
      | e :: cs2 =>
        match (match e with
          | '"' => some '"'
          | '\\' => some '\\'
          | '/' => some '/'
          | 'n' => some '\n'
          | 't' => some '\t'
          | 'r' => some '\r'
          | 'b' => some (Char.ofNat 8)
          | 'f' => some (Char.ofNat 12)
          | _ => none) with
        | none => none
        | some ec =>
          match parseStringBody fuel cs2 with
          | none => none
          | some (s, rest) => some (ec :: s, rest)
    else
      match parseStringBody fuel cs with
      | none => none
      | some (s, rest) => some (c :: s, rest)

/-- Longest leading run of decimal digits together with its value. -/
def takeDigits : List Char → Option (Nat × List Char)
  | cs =>
    let ds := cs.takeWhile Char.isDigit
    if ds = [] then none
    else some (ds.foldl (fun acc c => 10 * acc + (c.toNat - 48)) 0, cs.dropWhile Char.isDigit)

mutual

/-- Parse one JSON value; returns the value and the unconsumed remainder. -/
def parseValue : Nat → List Char → Option (JsonValue × List Char)
  | 0, _ => none
  | fuel + 1, cs =>
    match skipWs cs with
    | [] => none
    | c :: rest =>
      if c = '\x7b' then
        match skipWs rest with
        | '\x7d' :: rest2 => some (.obj [], rest2)
        | rest2 => match parseMembers fuel rest2 with
          | some (fs, rest3) => some (.obj fs, rest3)
          | none => none
      else if c = '[' then
        match skipWs rest with
        | ']' :: rest2 => some (.arr [], rest2)
        | rest2 => match parseElements fuel rest2 with
          | some (xs, rest3) => some (.arr xs, rest3)
          | none => none
      else if c = '"' then
        match parseStringBody (rest.length + 1) rest with
        | some (s, rest2) => some (.str s, rest2)
        | none => none
      else if c = 't' then
        match rest with
        | 'r' :: 'u' :: 'e' :: rest2 => some (.bool true, rest2)
        | _ => none
      else if c = 'f' then
        match rest with
        | 'a' :: 'l' :: 's' :: 'e' :: rest2 => some (.bool false, rest2)
        | _ => none
      else if c = 'n' then
        match rest with
        | 'u' :: 'l' :: 'l' :: rest2 => some (.null, rest2)
        | _ => none
      else if c = '-' then
        match takeDigits rest with
        | some (n, rest2) => some (.num (-(n : Int)), rest2)
        | none => none
      else if c.isDigit then
        match takeDigits (c :: rest) with
        | some (n, rest2) => some (.num (n : Int), rest2)
        | none => none
      else none

/-- Parse the members of a JSON object after the opening brace. -/
def parseMembers : Nat → List Char → Option (List (List Char × JsonValue) × List Char)
  | 0, _ => none
  | fuel + 1, cs =>
    match skipWs cs with
    | '"' :: rest =>
      match parseStringBody (rest.length + 1) rest with
      | some (k, rest2) =>
        (match skipWs rest2 with
        | ':' :: rest3 =>
          match parseValue fuel rest3 with
          | some (v, rest4) =>
            (match skipWs rest4 with
            | ',' :: rest5 =>
              (match parseMembers fuel rest5 with
              | some (fs, rest6) => some ((k, v) :: fs, rest6)
              | none => none)
            | '\x7d' :: rest5 => some ([(k, v)], rest5)
            | _ => none)
          | none => none
        | _ => none)
      | none => none
    | _ => none

/-- Parse the elements of a JSON array after the opening bracket. -/
def parseElements : Nat → List Char → Option (List JsonValue × List Char)
  | 0, _ => none
  | fuel + 1, cs =>
    match parseValue fuel cs with
    | some (v, rest) =>
      (match skipWs rest with
      | ',' :: rest2 =>
        (match parseElements fuel rest2 with
        | some (xs, rest3) => some (v :: xs, rest3)
        | none => none)
      | ']' :: rest2 => some ([v], rest2)
      | _ => none)
    | none => none

end

/-- Concrete model of the `JSON.parse` builtin: parse one value; anything
left over besides whitespace, or any parse error, means the builtin throws
(`none`). -/
def jsonParseImpl (cs : List Char) : Option JsonValue :=
  match parseValue (cs.length + 1) cs with
  | some (v, rest) => if skipWs rest = [] then some v else none
  | none => none

/-- Escape one character for JSON string output. -/
def escapeChar (c : Char) : List Char :=
  if c = '"' then ['\\', '"']
  else if c = '\\' then ['\\', '\\']
  else if c = '\n' then ['\\', 'n']
  else if c = '\t' then ['\\', 't']
  else if c = '\r' then ['\\', 'r']
  else [c]

/-- Render a JSON string literal with quotes. -/
def renderString (s : List Char) : List Char :=
  '"' :: (s.flatMap escapeChar) ++ ['"']

mutual

/-- Concrete model of the `JSON.stringify` builtin on runtime JSON values. -/
def jsonStringify : JsonValue → List Char
  | .null => 'n' :: 'u' :: 'l' :: 'l' :: []
  | .bool true => 't' :: 'r' :: 'u' :: 'e' :: []
  | .bool false => 'f' :: 'a' :: 'l' :: 's' :: 'e' :: []
  | .num n => (toString n).data
  | .str s => renderString s
  | .arr xs => '[' :: stringifyElems xs ++ [']']
  | .obj fs => '\x7b' :: stringifyMembers fs ++ ['\x7d']

/-- Render array elements, comma separated. -/
def stringifyElems : List JsonValue → List Char
  | [] => []
  | [x] => jsonStringify x
  | x :: xs => jsonStringify x ++ ',' :: stringifyElems xs

/-- Render object members, comma separated. -/
def stringifyMembers : List (List Char × JsonValue) → List Char
  | [] => []
  | [(k, v)] => renderString k ++ ':' :: jsonStringify v
  | (k, v) :: fs => renderString k ++ ':' :: jsonStringify v ++ ',' :: stringifyMembers fs

end

/-! Frame decoder and message dispatch (`SSEClient.parseLine`,
`SSEClient.dispatchMessage`). -/

/-- Mirror of the `SSEMessage` interface.  `type` and `timestamp` hold the
runtime values assigned by `dispatchMessage` (which need not be strings when
the payload declares non-string fields); a generated timestamp is the `now`
argument threaded through dispatch in place of `new Date().toISOString()`. -/
structure SSEMessage where
  event : List Char
  type : JsonValue
  data : JsonValue
  timestamp : JsonValue

/-- Mirror of the `SSEEventBuffer` interface: the in-progress frame. -/
structure SSEEventBuffer where
  event : List Char
  data : List (List Char)
  id : Option (List Char)

/-- Buffer value `{ event: "message", data: [] }` used at initialization and
after each dispatch. -/
def freshBuffer : SSEEventBuffer :=
  { event := "message".data, data := [], id := none }

/-- Join of the frame's data lines with a line feed (`buffer.data.join("\n")`). -/
def joinNl : List (List Char) → List Char
  | [] => []
  | [l] => l
  | l :: ls => l ++ '\n' :: joinNl ls

/-- Mirror of `SSEClient.dispatchMessage`: finalize the in-progress frame into
a message and reset the frame.  `jp` models the `JSON.parse` builtin (`none`
when it throws) and `now` the generated timestamp. -/
def dispatchMessage (jp : List Char → Option JsonValue) (now : List Char)
    (buffer : SSEEventBuffer) : SSEMessage × SSEEventBuffer :=
  let rawData := joinNl buffer.data
  let parsedData := (jp rawData).getD (.str rawData)
  let tsField : Option JsonValue :=
    if typeofObject parsedData then getField parsedData "timestamp".data else none
  let message : SSEMessage :=
    { event := if buffer.event = [] then "message".data else buffer.event
      type :=
        if typeofObject parsedData then
          match getField parsedData "type".data with
          | some t => if truthy t then t else .str "message".data
          | none => .str "message".data
        else .str "message".data
      data := parsedData
      timestamp :=
        match tsField with
        | some t => if truthy t then t else .str now
        | none => .str now }
  (message, freshBuffer)

/-- Strip one trailing carriage return (`line.replace(/\r$/, "")`). -/
def stripCr (l : List Char) : List Char :=
  if l.getLast? = some '\r' then l.dropLast else l

/-- Strip at most one leading space from a field value. -/
def stripLeadSpace : List Char → List Char
  | ' ' :: rest => rest
  | v => v

/-- Split a line at its first colon (`indexOf(":")` / `slice`); `none` when
the line contains no colon. -/
def splitFirstColon : List Char → Option (List Char × List Char)
  | [] => none
  | c :: rest =>
    if c = ':' then some ([], rest)
    else
      match splitFirstColon rest with
      | none => none
      | some (f, v) => some (c :: f, v)

/-- Body of `SSEClient.parseLine` after carriage-return normalization: update
the frame, returning the new frame and the messages emitted (none or one). -/
def parseLineCore (jp : List Char → Option JsonValue) (now : List Char)
    (buffer : SSEEventBuffer) (normalized : List Char) :
    SSEEventBuffer × List SSEMessage :=
  if normalized = [] then
    if buffer.data.length > 0 then
      let (m, b) := dispatchMessage jp now buffer
      (b, [m])
    else (buffer, [])
  else if normalized.head? = some ':' then (buffer, [])
  else
    match splitFirstColon normalized with
    | none => (buffer, [])
    | some (field, rawValue) =>
      let value := stripLeadSpace rawValue
      if field = "event".data then ({ buffer with event := value }, [])
      else if field = "data".data then ({ buffer with data := buffer.data ++ [value] }, [])
      else if field = "id".data then ({ buffer with id := some value }, [])
      else (buffer, [])

/-- Mirror of `SSEClient.parseLine`: normalize the trailing carriage return,
then interpret the line. -/
def parseLine (jp : List Char → Option JsonValue) (now : List Char)
    (buffer : SSEEventBuffer) (line : List Char) : SSEEventBuffer × List SSEMessage :=
  parseLineCore jp now buffer (stripCr line)

/-- Process a list of complete lines in order, collecting emitted messages
(the `for (const line of lines)` loop). -/
def processLines (jp : List Char → Option JsonValue) (now : List Char)
    (buffer : SSEEventBuffer) : List (List Char) → SSEEventBuffer × List SSEMessage
  | [] => (buffer, [])
  | l :: ls =>
    let (b1, m1) := parseLine jp now buffer l
    let (b2, m2) := processLines jp now b1 ls
    (b2, m1 ++ m2)

/-- Split a text into its complete lines and the trailing unterminated
segment (`partial.split("\n")` followed by `lines.pop()`). -/
def splitNl : List Char → List (List Char) × List Char
  | [] => ([], [])
  | c :: rest =>
    let p := splitNl rest
    if c = '\n' then ([] :: p.1, p.2)
    else
      match p with
      | ([], cr) => ([], c :: cr)
      | (l :: ls, cr) => ((c :: l) :: ls, cr)

/-- Decoder state carried across chunks: the in-progress frame and the
trailing unterminated line segment (`partial`). -/
structure DecoderState where
  buffer : SSEEventBuffer
  carry : List Char

/-- Decoder state at connection open: fresh frame, empty carry. -/
def initDecoder : DecoderState :=
  { buffer := freshBuffer, carry := [] }

/-- Feed one text chunk to the decoder: prepend the carry, split off complete
lines, process them, and retain the unterminated tail (one iteration of the
read loop in `performConnect`). -/
def feedChunk (jp : List Char → Option JsonValue) (now : List Char)
    (st : DecoderState) (chunk : List Char) : DecoderState × List SSEMessage :=
  let p := splitNl (st.carry ++ chunk)
  let (b, ms) := processLines jp now st.buffer p.1
  ({ buffer := b, carry := p.2 }, ms)

/-- Feed successive chunks to the decoder, collecting all emitted messages in
order. -/
def feedChunks (jp : List Char → Option JsonValue) (now : List Char)
    (st : DecoderState) : List (List Char) → DecoderState × List SSEMessage
  | [] => (st, [])
  | c :: cs =>
    let (s1, m1) := feedChunk jp now st c
    let (s2, m2) := feedChunks jp now s1 cs
    (s2, m1 ++ m2)

/-! Connection transport (`SSEClient.connect`, `SSEClient.disconnect`):
request construction and the lifecycle state machine. -/

/-- Runtime value of the `body` option: `Record<string, unknown> | string`. -/
inductive BodyVal where
  | str (s : List Char)
  | obj (j : JsonValue)

/-- Mirror of `SSEClientOptions` (callbacks excluded; they are modelled as
emitted events).  `none` marks an omitted optional field; defaults are applied
where `connect` destructures. -/
structure SSEClientOptions where
  url : List Char
  method : Option (List Char) := none
  body : Option BodyVal := none
  headers : Option (List (List Char × List Char)) := none
  autoReconnect : Option Bool := none
  reconnectDelay : Option Nat := none
  maxReconnectAttempts : Option Nat := none

/-- JavaScript truthiness of the `body` option (`method === "POST" && body`). -/
def truthyBody : Option BodyVal → Bool
  | none => false
  | some (.str s) => s ≠ []
  | some (.obj _) => true

/-- Set a key in a JS-object header map: replace the binding if the key
exists, otherwise append it. -/
def insertHeader (hs : List (List Char × List Char)) (k v : List Char) :
    List (List Char × List Char) :=
  if hs.any (fun p => p.1 = k) then
    hs.map (fun p => if p.1 = k then (k, v) else p)
  else hs ++ [(k, v)]

/-- Object spread `{ ...base, ...extra }`: fold the extra bindings into the
base map, later bindings overriding earlier ones. -/
def mergeHeaders (base extra : List (List Char × List Char)) :
    List (List Char × List Char) :=
  extra.foldl (fun acc p => insertHeader acc p.1 p.2) base

/-- Lookup of a header key (first binding; maps built by `insertHeader` have
unique keys). -/
def lookupHeader : List (List Char × List Char) → List Char → Option (List Char)
  | [], _ => none
  | (k, v) :: hs, key => if k = key then some v else lookupHeader hs key

/-- Observable part of the `RequestInit` passed to `fetch`. -/
structure RequestData where
  method : List Char
  headers : List (List Char × List Char)
  bodyStr : Option (List Char)

/-- Mirror of the request construction at the top of `performConnect`:
default headers with caller headers spread over them, and for a POST with a
truthy body the JSON content type and the serialized body. -/
def buildRequest (o : SSEClientOptions) : RequestData :=
  let method := o.method.getD "GET".data
  let requestHeaders :=
    mergeHeaders
      [("Accept".data, "text/event-stream".data),
       ("Cache-Control".data, "no-cache".data)]
      (o.headers.getD [])
  if method = "POST".data ∧ truthyBody o.body then
    { method := method
      headers := insertHeader requestHeaders "Content-Type".data "application/json".data
      bodyStr :=
        match o.body with
        | some (.str s) => some s
        | some (.obj j) => some (jsonStringify j)
        | none => none }
  else
    { method := method, headers := requestHeaders, bodyStr := none }

/-- Pending retry timer: its handle and the delay it was armed with. -/
structure TimerRec where
  id : Nat
  delay : Nat
deriving DecidableEq

/-- Lifecycle state of one `SSEClient` instance.  `inflight` holds the ids of
abort controllers created and not yet aborted (the live `abortController`),
`timers` the pending retry timers (`reconnectTimeout`), and `finished` the
ids of requests whose `performConnect` run has already returned, so a request
can fail or end at most once. -/
structure ClientState where
  inflight : List Nat
  timers : List TimerRec
  reconnectAttempts : Nat
  finished : List Nat
  nextId : Nat

/-- State of a freshly constructed client. -/
def initClient : ClientState :=
  { inflight := [], timers := [], reconnectAttempts := 0, finished := [], nextId := 0 }

/-- Consumer-facing callbacks. -/
inductive Callback where
  | opened
  | error
  | closed
deriving DecidableEq

/-- Mirror of `SSEClient.disconnect(resetAttempts)`: abort the in-flight
request, clear the pending retry timer, and reset the attempt counter only
when asked. -/
def disconnect (resetAttempts : Bool) (s : ClientState) : ClientState :=
  { s with
    inflight := []
    timers := []
    reconnectAttempts := if resetAttempts then 0 else s.reconnectAttempts }

/-- Mirror of the synchronous part of `SSEClient.connect`: internal
close-without-reset, then a fresh abort controller for the new request. -/
def connect (s : ClientState) : ClientState :=
  let s1 := disconnect false s
  { s1 with inflight := [s1.nextId], nextId := s1.nextId + 1 }

/-- Mirror of the catch block of `performConnect` for request `r`: if the
request's signal was aborted the error is swallowed, otherwise the error
callback fires and, when auto-reconnect is enabled and the ceiling is zero or
not yet reached, the attempt counter is incremented and a retry timer armed
with the configured delay. -/
def handleFailure (o : SSEClientOptions) (r : Nat) (s : ClientState) :
    ClientState × List Callback :=
  if r ∈ s.finished then (s, [])
  else
    let s1 := { s with finished := s.finished ++ [r] }
    if r ∈ s.inflight then
      if (o.autoReconnect.getD false) = true ∧
          ((o.maxReconnectAttempts.getD 5) = 0 ∨
            s.reconnectAttempts < o.maxReconnectAttempts.getD 5) then
        ({ s1 with
            reconnectAttempts := s.reconnectAttempts + 1
            timers := s.timers ++ [⟨s.nextId, o.reconnectDelay.getD 3000⟩]
            nextId := s.nextId + 1 }, [.error])
      else (s1, [.error])
    else (s1, [])

/-- Mirror of the success path of `performConnect` for request `r` (`fetch`
resolved with an ok status and a body): reset the attempt counter and fire
the open callback. -/
def handleOpen (r : Nat) (s : ClientState) : ClientState × List Callback :=
  if r ∉ s.finished then ({ s with reconnectAttempts := 0 }, [.opened])
  else (s, [])

/-- Mirror of the `done` branch of the read loop for request `r`: the loop
terminates and the close callback fires. -/
def handleStreamEnd (r : Nat) (s : ClientState) : ClientState × List Callback :=
  if r ∉ s.finished then ({ s with finished := s.finished ++ [r] }, [.closed])
  else (s, [])

/-- Firing of retry timer `t`: a pending timer runs `this.connect()`; a
cleared timer never fires. -/
def handleTimerFire (t : Nat) (s : ClientState) : ClientState × List Callback :=
  if s.timers.any (fun tr => tr.id = t) then (connect s, [])
  else (s, [])

/-- Atomic lifecycle events of one client instance. -/
inductive TransportEvent where
  | connectCall
  | disconnectCall (resetAttempts : Bool)
  | openOk (r : Nat)
  | failure (r : Nat)
  | streamEnd (r : Nat)
  | timerFire (t : Nat)

/-- One lifecycle step: the new state and the callbacks emitted. -/
def stepEvent (o : SSEClientOptions) (s : ClientState) :
    TransportEvent → ClientState × List Callback
  | .connectCall => (connect s, [])
  | .disconnectCall b => (disconnect b s, [])
  | .openOk r => handleOpen r s
  | .failure r => handleFailure o r s
  | .streamEnd r => handleStreamEnd r s
  | .timerFire t => handleTimerFire t s

/-- Run a sequence of lifecycle events, collecting all emitted callbacks. -/
def runEvents (o : SSEClientOptions) (s : ClientState) :
    List TransportEvent → ClientState × List Callback
  | [] => (s, [])
  | e :: es =>
    let (s1, c1) := stepEvent o s e
    let (s2, c2) := runEvents o s1 es
    (s2, c1 ++ c2)

/-- Character-level splitting step: a line feed completes the pending line,
any other character extends it. -/
def splitStep (acc : List (List Char) × List Char) (c : Char) :
    List (List Char) × List Char :=
  if c = '\n' then (acc.1 ++ [acc.2], []) else (acc.1, acc.2 ++ [c])

/-- Terminate every line with the given delimiter and concatenate. -/
def terminateLines (lines : List (List Char)) (delim : List Char) : List Char :=
  (lines.map (fun l => l ++ delim)).flatten

/-- Lifecycle invariant: at most one live abort controller, at most one
pending retry timer, and a pending timer means every live request has already
settled (so no second timer can ever be armed). -/
def StateInv (s : ClientState) : Prop :=
  s.inflight.length ≤ 1 ∧ s.timers.length ≤ 1 ∧
    (s.timers ≠ [] → ∀ r ∈ s.inflight, r ∈ s.finished)


theorem splitNl_no_nl (l : List Char) (h : '\n' ∉ l) : splitNl l = ([], l) := by
  induction l with
  | nil => rfl
  | cons c cs ih =>
    have hc : c ≠ '\n' := fun hc => h (hc ▸ List.mem_cons_self c cs)
    have ih2 := ih (fun hm => h (List.mem_cons_of_mem c hm))
    simp only [splitNl, if_neg hc, ih2]

theorem splitNl_line (l rest : List Char) (h : '\n' ∉ l) :
    splitNl (l ++ '\n' :: rest) = (l :: (splitNl rest).1, (splitNl rest).2) := by
  induction l with
  | nil => simp [splitNl]
  | cons c cs ih =>
    have hc : c ≠ '\n' := fun hc => h (hc ▸ List.mem_cons_self c cs)
    have ih2 := ih (fun hm => h (List.mem_cons_of_mem c hm))
    simp only [List.cons_append, splitNl, if_neg hc, List.append_eq, ih2]

theorem splitNl_carry_no_nl (cs : List Char) : '\n' ∉ (splitNl cs).2 := by
  induction cs with
  | nil => simp [splitNl]
  | cons c cs ih =>
    by_cases hc : c = '\n'
    · simp only [splitNl, if_pos hc]; exact ih
    · simp only [splitNl, if_neg hc]
      rcases h : splitNl cs with ⟨ls, cr⟩
      rcases ls with _ | ⟨l, ls⟩
      · simp only []
        intro hm
        rcases List.mem_cons.mp hm with h1 | h2
        · exact hc h1.symm
        · exact ih (by rw [h]; exact h2)
      · simp only []
        exact fun hm => ih (by rw [h]; exact hm)

theorem foldl_splitStep (cs : List Char) :
    ∀ (ls : List (List Char)) (cr : List Char), '\n' ∉ cr →
      cs.foldl splitStep (ls, cr) =
        (ls ++ (splitNl (cr ++ cs)).1, (splitNl (cr ++ cs)).2) := by
  induction cs with
  | nil =>
    intro ls cr h
    simp [splitNl_no_nl cr h]
  | cons c cs ih =>
    intro ls cr h
    by_cases hc : c = '\n'
    · subst hc
      have step : splitStep (ls, cr) '\n' = (ls ++ [cr], []) := by
        simp [splitStep]
      rw [List.foldl_cons, step, ih (ls ++ [cr]) [] (by simp),
        splitNl_line cr cs h]
      simp
    · have step : splitStep (ls, cr) c = (ls, cr ++ [c]) := by
        simp [splitStep, hc]
      have h2 : '\n' ∉ cr ++ [c] := by
        intro hm
        rcases List.mem_append.mp hm with h1 | h1
        · exact h h1
        · exact hc (List.mem_singleton.mp h1).symm
      rw [List.foldl_cons, step, ih ls (cr ++ [c]) h2, List.append_assoc]
      rfl

theorem splitNl_eq_foldl (cs : List Char) :
    splitNl cs = cs.foldl splitStep ([], []) := by
  rw [foldl_splitStep cs [] [] (by simp)]
  simp

theorem splitNl_append (xs ys : List Char) :
    splitNl (xs ++ ys) =
      ((splitNl xs).1 ++ (splitNl ((splitNl xs).2 ++ ys)).1,
       (splitNl ((splitNl xs).2 ++ ys)).2) := by
  rw [splitNl_eq_foldl (xs ++ ys), List.foldl_append]
  rw [← splitNl_eq_foldl xs]
  rcases h : splitNl xs with ⟨ls, cr⟩
  have hcr : '\n' ∉ cr := by
    have := splitNl_carry_no_nl xs
    rw [h] at this
    exact this
  rw [foldl_splitStep ys ls cr hcr]

theorem processLines_append (jp : List Char → Option JsonValue) (now : List Char)
    (buffer : SSEEventBuffer) (as bs : List (List Char)) :
    processLines jp now buffer (as ++ bs) =
      ((processLines jp now (processLines jp now buffer as).1 bs).1,
       (processLines jp now buffer as).2 ++
         (processLines jp now (processLines jp now buffer as).1 bs).2) := by
  induction as generalizing buffer with
  | nil => simp [processLines]
  | cons a as ih =>
    simp only [List.cons_append, processLines, List.append_eq]
    rw [ih]
    simp [processLines]

theorem feedChunk_append (jp : List Char → Option JsonValue) (now : List Char)
    (st : DecoderState) (a b : List Char) :
    feedChunk jp now st (a ++ b) =
      ((feedChunk jp now (feedChunk jp now st a).1 b).1,
       (feedChunk jp now st a).2 ++ (feedChunk jp now (feedChunk jp now st a).1 b).2) := by
  simp only [feedChunk]
  rw [← List.append_assoc, splitNl_append (st.carry ++ a) b]
  rw [processLines_append]

/-- C1: For every input text sequence and every partition of it into chunks,
feeding the chunks one at a time to the decoder (which carries the trailing
unterminated line segment over between chunks) produces exactly the same
decoder state and the same ordered sequence of Messages as feeding the entire
sequence as a single chunk. -/
theorem sse_chunk_boundary_invariance (jp : List Char → Option JsonValue)
    (now : List Char) (st : DecoderState) (chunks : List (List Char))
    (h : '\n' ∉ st.carry) :
    feedChunks jp now st chunks = feedChunk jp now st chunks.flatten := by
  induction chunks generalizing st with
  | nil =>
    simp [feedChunks, feedChunk, splitNl_no_nl st.carry h, processLines]
  | cons c cs ih =>
    simp only [List.flatten_cons, feedChunks]
    rw [feedChunk_append]
    have h2 : '\n' ∉ (feedChunk jp now st c).1.carry := by
      simp only [feedChunk]
      exact splitNl_carry_no_nl _
    rw [ih _ h2]

/-- Witness for C1 at a concrete split of a concrete stream. -/
theorem sse_chunk_boundary_invariance_witness :
    '\n' ∉ initDecoder.carry ∧
      feedChunks jsonParseImpl "T".data initDecoder
          ["data: A\nda".data, "ta: B\n".data, "\n".data] =
        feedChunk jsonParseImpl "T".data initDecoder
          ("data: A\ndata: B\n\n".data) := by
  refine ⟨by simp [initDecoder], ?_⟩
  have h := sse_chunk_boundary_invariance jsonParseImpl "T".data initDecoder
    ["data: A\nda".data, "ta: B\n".data, "\n".data] (by simp [initDecoder])
  rw [h]
  rfl

theorem stripCr_concat (l : List Char) : stripCr (l ++ ['\r']) = l := by
  simp [stripCr]

theorem stripCr_of_no_cr (l : List Char) (h : l.getLast? ≠ some '\r') :
    stripCr l = l := by
  simp [stripCr, h]

theorem parseLine_cr (jp : List Char → Option JsonValue) (now : List Char)
    (buf : SSEEventBuffer) (l : List Char) (h : l.getLast? ≠ some '\r') :
    parseLine jp now buf (l ++ ['\r']) = parseLine jp now buf l := by
  simp only [parseLine, stripCr_concat l, stripCr_of_no_cr l h]

theorem feedChunk_line_cons (jp : List Char → Option JsonValue) (now : List Char)
    (buf : SSEEventBuffer) (l rest : List Char) (h : '\n' ∉ l) :
    feedChunk jp now ⟨buf, []⟩ (l ++ '\n' :: rest) =
      ((feedChunk jp now ⟨(parseLine jp now buf l).1, []⟩ rest).1,
        (parseLine jp now buf l).2 ++
          (feedChunk jp now ⟨(parseLine jp now buf l).1, []⟩ rest).2) := by
  simp only [feedChunk, List.nil_append, splitNl_line l rest h, processLines]

/-- C10: decoding a stream whose lines are delimited by CRLF yields the same
decoder result as the same lines delimited by LF alone, because exactly one
trailing carriage return is stripped from each line before interpretation. -/
theorem sse_crlf_invariance (jp : List Char → Option JsonValue) (now : List Char)
    (buf : SSEEventBuffer) (lines : List (List Char))
    (h : ∀ l ∈ lines, '\n' ∉ l ∧ l.getLast? ≠ some '\r') :
    (∀ l : List Char, l.getLast? ≠ some '\r' →
        parseLine jp now buf (l ++ ['\r']) = parseLine jp now buf l) ∧
    (∀ l : List Char, stripCr (l ++ ['\r', '\r']) = l ++ ['\r']) ∧
    feedChunk jp now ⟨buf, []⟩ (terminateLines lines ['\r', '\n']) =
      feedChunk jp now ⟨buf, []⟩ (terminateLines lines ['\n']) := by
  refine ⟨fun l hl => parseLine_cr jp now buf l hl, fun l => ?_, ?_⟩
  · have h2 : l ++ ['\r', '\r'] = (l ++ ['\r']) ++ ['\r'] := by simp
    rw [h2, stripCr_concat]
  · induction lines generalizing buf with
    | nil => rfl
    | cons l ls ih =>
      have hl := h l (List.mem_cons_self l ls)
      have hls : ∀ x ∈ ls, '\n' ∉ x ∧ x.getLast? ≠ some '\r' :=
        fun x hx => h x (List.mem_cons_of_mem l hx)
      have hcr : terminateLines (l :: ls) ['\r', '\n'] =
          (l ++ ['\r']) ++ '\n' :: terminateLines ls ['\r', '\n'] := by
        simp [terminateLines]
      have hlf : terminateLines (l :: ls) ['\n'] =
          l ++ '\n' :: terminateLines ls ['\n'] := by
        simp [terminateLines]
      have hnl : '\n' ∉ l ++ ['\r'] := by
        intro hm
        rcases List.mem_append.mp hm with h1 | h1
        · exact hl.1 h1
        · simp at h1
      rw [hcr, hlf, feedChunk_line_cons jp now buf (l ++ ['\r']) _ hnl,
        feedChunk_line_cons jp now buf l _ hl.1,
        parseLine_cr jp now buf l hl.2, ih _ hls]

/-- Witness for C10 at a concrete two-line stream. -/
theorem sse_crlf_invariance_witness :
    (∀ l ∈ [("data: A").data, ("").data], '\n' ∉ l ∧ l.getLast? ≠ some '\r') ∧
      feedChunk jsonParseImpl "T".data ⟨freshBuffer, []⟩
          (terminateLines [("data: A").data, ("").data] ['\r', '\n']) =
        feedChunk jsonParseImpl "T".data ⟨freshBuffer, []⟩
          (terminateLines [("data: A").data, ("").data] ['\n']) := by
  refine ⟨by decide, ?_⟩
  exact (sse_crlf_invariance jsonParseImpl "T".data freshBuffer
    [("data: A").data, ("").data] (by decide)).2.2

/-- C6: processing an empty line finalizes a Message and resets the frame if
and only if the in-progress frame has at least one data line (otherwise the
line is ignored and the frame left unchanged); the finalized raw payload is
the data lines joined with a line feed in order of appearance, so data lines
`a` then `b` yield the join `a ++ "\n" ++ b` (kept as the raw payload when
deserialization fails). -/
theorem sse_empty_line_finalize (jp : List Char → Option JsonValue)
    (now ev a b : List Char) (idv : Option (List Char)) (buf : SSEEventBuffer)
    (hjp : jp (a ++ '\n' :: b) = none) :
    ((parseLine jp now buf []).2 ≠ [] ↔ buf.data ≠ []) ∧
    (buf.data = [] → parseLine jp now buf [] = (buf, [])) ∧
    (buf.data ≠ [] →
      parseLine jp now buf [] = (freshBuffer, [(dispatchMessage jp now buf).1])) ∧
    joinNl [a, b] = a ++ '\n' :: b ∧
    (dispatchMessage jp now ⟨ev, [a, b], idv⟩).1.data = .str (a ++ '\n' :: b) := by
  have hempty : buf.data = [] → parseLine jp now buf [] = (buf, []) := by
    intro hd
    simp [parseLine, stripCr, parseLineCore, hd]
  have hfull : buf.data ≠ [] →
      parseLine jp now buf [] = (freshBuffer, [(dispatchMessage jp now buf).1]) := by
    intro hd
    have hlen : buf.data.length > 0 := List.length_pos.mpr hd
    simp [parseLine, stripCr, parseLineCore, hlen, dispatchMessage]
  refine ⟨?_, hempty, hfull, rfl, ?_⟩
  · constructor
    · intro h2 hd
      rw [hempty hd] at h2
      exact h2 rfl
    · intro hd
      rw [hfull hd]
      simp
  · simp [dispatchMessage, joinNl, hjp]

/-- Witness for C6 at concrete data lines `A` and `B`. -/
theorem sse_empty_line_finalize_witness :
    jsonParseImpl ("A".data ++ '\n' :: "B".data) = none ∧
      (dispatchMessage jsonParseImpl "T".data
          ⟨"message".data, ["A".data, "B".data], none⟩).1.data =
        .str ("A".data ++ '\n' :: "B".data) := by
  refine ⟨rfl, ?_⟩
  exact (sse_empty_line_finalize jsonParseImpl "T".data "message".data
    "A".data "B".data none freshBuffer rfl).2.2.2.2

/-- C7 counterexample: the frame `data: {"type":"","timestamp":""}` parses to
a structured object declaring type `""` and timestamp `""`, yet the finalized
message has kind `"message"` and a generated timestamp — the declared fields
are not taken verbatim when they are falsy. -/
theorem sse_dispatch_falsy_counterexample :
    (dispatchMessage jsonParseImpl "NOW".data
        ⟨"message".data, ["\x7b\"type\":\"\",\"timestamp\":\"\"\x7d".data], none⟩).1.type =
      .str "message".data ∧
    (dispatchMessage jsonParseImpl "NOW".data
        ⟨"message".data, ["\x7b\"type\":\"\",\"timestamp\":\"\"\x7d".data], none⟩).1.timestamp =
      .str "NOW".data ∧
    getField ((dispatchMessage jsonParseImpl "NOW".data
        ⟨"message".data, ["\x7b\"type\":\"\",\"timestamp\":\"\"\x7d".data], none⟩).1.data)
      "type".data = some (.str []) ∧
    getField ((dispatchMessage jsonParseImpl "NOW".data
        ⟨"message".data, ["\x7b\"type\":\"\",\"timestamp\":\"\"\x7d".data], none⟩).1.data)
      "timestamp".data = some (.str []) ∧
    JsonValue.str "message".data ≠ JsonValue.str [] ∧
    JsonValue.str "NOW".data ≠ JsonValue.str [] := by
  refine ⟨rfl, rfl, rfl, rfl, ?_, ?_⟩
  · intro h
    injection h with h2
    exact List.noConfusion h2
  · intro h
    injection h with h2
    exact List.noConfusion h2

/-- C7 (amended): finalization attempts structured deserialization and never
throws; on parse failure the payload is the raw joined string, the kind is
`"message"` and the timestamp is generated; on parsing to a structured object
the kind is the payload's declared type field when that field is present and
truthy (else `"message"`), and the timestamp is the payload's declared
timestamp field when present and truthy (else generated). -/
theorem sse_dispatch_amended (jp : List Char → Option JsonValue)
    (now ev : List Char) (dat : List (List Char)) (idv : Option (List Char)) :
    (jp (joinNl dat) = none →
      (dispatchMessage jp now ⟨ev, dat, idv⟩).1.data = .str (joinNl dat) ∧
      (dispatchMessage jp now ⟨ev, dat, idv⟩).1.type = .str "message".data ∧
      (dispatchMessage jp now ⟨ev, dat, idv⟩).1.timestamp = .str now) ∧
    (∀ v, jp (joinNl dat) = some v →
      (dispatchMessage jp now ⟨ev, dat, idv⟩).1.data = v) ∧
    (∀ fs, jp (joinNl dat) = some (.obj fs) →
      ((dispatchMessage jp now ⟨ev, dat, idv⟩).1.type =
        match lookupField fs "type".data with
        | some t => if truthy t then t else .str "message".data
        | none => .str "message".data) ∧
      ((dispatchMessage jp now ⟨ev, dat, idv⟩).1.timestamp =
        match lookupField fs "timestamp".data with
        | some t => if truthy t then t else .str now
        | none => .str now)) := by
  refine ⟨?_, ?_, ?_⟩
  · intro hjp
    simp [dispatchMessage, hjp, typeofObject]
  · intro v hjp
    simp [dispatchMessage, hjp]
  · intro fs hjp
    constructor
    · simp [dispatchMessage, hjp, typeofObject, getField]
    · simp [dispatchMessage, hjp, typeofObject, getField]

/-- Witness for C7 on a parse failure and on a structured object with truthy
declared fields. -/
theorem sse_dispatch_amended_witness :
    jsonParseImpl (joinNl ["not-json".data]) = none ∧
      (dispatchMessage jsonParseImpl "G".data
          ⟨"message".data, ["not-json".data], none⟩).1.data = .str "not-json".data ∧
      jsonParseImpl (joinNl ["\x7b\"type\":\"x\",\"timestamp\":\"T\"\x7d".data]) =
        some (.obj [("type".data, .str "x".data), ("timestamp".data, .str "T".data)]) ∧
      (dispatchMessage jsonParseImpl "G".data
          ⟨"message".data, ["\x7b\"type\":\"x\",\"timestamp\":\"T\"\x7d".data], none⟩).1.type =
        .str "x".data ∧
      (dispatchMessage jsonParseImpl "G".data
          ⟨"message".data, ["\x7b\"type\":\"x\",\"timestamp\":\"T\"\x7d".data], none⟩).1.timestamp =
        .str "T".data := by
  refine ⟨rfl, ?_, rfl, ?_, ?_⟩
  · exact ((sse_dispatch_amended jsonParseImpl "G".data "message".data
      ["not-json".data] none).1 rfl).1
  · exact ((sse_dispatch_amended jsonParseImpl "G".data "message".data
      ["\x7b\"type\":\"x\",\"timestamp\":\"T\"\x7d".data] none).2.2
      [("type".data, .str "x".data), ("timestamp".data, .str "T".data)] rfl).1.trans rfl
  · exact ((sse_dispatch_amended jsonParseImpl "G".data "message".data
      ["\x7b\"type\":\"x\",\"timestamp\":\"T\"\x7d".data] none).2.2
      [("type".data, .str "x".data), ("timestamp".data, .str "T".data)] rfl).2.trans rfl

/-- C8: for a non-empty normalized line — a line beginning with a colon is
ignored; a line with no colon is ignored; otherwise the line splits at the
first colon, at most one leading space is stripped from the value, `event`
replaces the current event name, `data` appends to the data-line sequence in
order, `id` is recorded in the frame but never affects the dispatched
Message, and any other field name is ignored without error. -/
theorem sse_field_line_handling (jp : List Char → Option JsonValue)
    (now : List Char) (buf : SSEEventBuffer) (line f v i : List Char)
    (h : stripCr line ≠ []) :
    ((stripCr line).head? = some ':' → parseLine jp now buf line = (buf, [])) ∧
    (splitFirstColon (stripCr line) = none → parseLine jp now buf line = (buf, [])) ∧
    ((stripCr line).head? ≠ some ':' →
      splitFirstColon (stripCr line) = some (f, v) →
      ((f = "event".data →
          parseLine jp now buf line = ({ buf with event := stripLeadSpace v }, [])) ∧
       (f = "data".data →
          parseLine jp now buf line =
            ({ buf with data := buf.data ++ [stripLeadSpace v] }, [])) ∧
       (f = "id".data →
          parseLine jp now buf line = ({ buf with id := some (stripLeadSpace v) }, [])) ∧
       (f ≠ "event".data → f ≠ "data".data → f ≠ "id".data →
          parseLine jp now buf line = (buf, [])))) ∧
    stripLeadSpace (' ' :: v) = v ∧
    stripLeadSpace (' ' :: ' ' :: v) = ' ' :: v ∧
    (dispatchMessage jp now { buf with id := some i }).1 =
      (dispatchMessage jp now { buf with id := none }).1 := by
  refine ⟨?_, ?_, ?_, rfl, rfl, rfl⟩
  · intro hc
    simp [parseLine, parseLineCore, h, hc]
  · intro hs
    by_cases hc : (stripCr line).head? = some ':'
    · simp [parseLine, parseLineCore, h, hc]
    · simp [parseLine, parseLineCore, h, hc, hs]
  · intro hc hsp
    refine ⟨?_, ?_, ?_, ?_⟩
    · intro hf
      simp [parseLine, parseLineCore, h, hc, hsp, hf]
    · intro hf
      subst hf
      have hne : ¬(("data".data : List Char) = "event".data) := by decide
      simp [parseLine, parseLineCore, h, hc, hsp, hne]
    · intro hf
      subst hf
      have hne1 : ¬(("id".data : List Char) = "event".data) := by decide
      have hne2 : ¬(("id".data : List Char) = "data".data) := by decide
      simp [parseLine, parseLineCore, h, hc, hsp, hne1, hne2]
    · intro hf1 hf2 hf3
      simp [parseLine, parseLineCore, h, hc, hsp, hf1, hf2, hf3]

/-- Witness for C8 at the concrete line `data: hi`. -/
theorem sse_field_line_handling_witness :
    stripCr "data: hi".data ≠ [] ∧
      parseLine jsonParseImpl "T".data freshBuffer "data: hi".data =
        ({ freshBuffer with data := freshBuffer.data ++ ["hi".data] }, []) := by
  refine ⟨by decide, ?_⟩
  have h := (sse_field_line_handling jsonParseImpl "T".data freshBuffer
    "data: hi".data "data".data " hi".data "7".data (by decide)).2.2.1
    (by decide) (by decide)
  exact (h.2.1 rfl).trans rfl

theorem mem_of_len_le_one {α : Type} {l : List α} {a b : α}
    (h : l.length ≤ 1) (ha : a ∈ l) (hb : b ∈ l) : a = b := by
  match l, h with
  | [], _ => cases ha
  | [x], _ =>
    rw [List.mem_singleton.mp ha, List.mem_singleton.mp hb]

theorem stateInv_step (o : SSEClientOptions) (s : ClientState)
    (e : TransportEvent) (hs : StateInv s) : StateInv (stepEvent o s e).1 := by
  obtain ⟨h1, h2, h3⟩ := hs
  cases e with
  | connectCall =>
    refine ⟨by simp [stepEvent, connect, disconnect], by simp [stepEvent, connect, disconnect], ?_⟩
    simp [stepEvent, connect, disconnect]
  | disconnectCall b =>
    refine ⟨by simp [stepEvent, disconnect], by simp [stepEvent, disconnect], ?_⟩
    simp [stepEvent, disconnect]
  | openOk r =>
    by_cases hf : r ∉ s.finished
    · exact ⟨by simpa [stepEvent, handleOpen, hf] using h1,
        by simpa [stepEvent, handleOpen, hf] using h2,
        by simpa [stepEvent, handleOpen, hf] using h3⟩
    · exact ⟨by simpa [stepEvent, handleOpen, hf] using h1,
        by simpa [stepEvent, handleOpen, hf] using h2,
        by simpa [stepEvent, handleOpen, hf] using h3⟩
  | streamEnd r =>
    by_cases hf : r ∉ s.finished
    · refine ⟨by simpa [stepEvent, handleStreamEnd, hf] using h1,
        by simpa [stepEvent, handleStreamEnd, hf] using h2, ?_⟩
      simp only [stepEvent, handleStreamEnd, if_pos hf]
      intro ht x hx
      exact List.mem_append_left _ (h3 ht x hx)
    · exact ⟨by simpa [stepEvent, handleStreamEnd, hf] using h1,
        by simpa [stepEvent, handleStreamEnd, hf] using h2,
        by simpa [stepEvent, handleStreamEnd, hf] using h3⟩
  | failure r =>
    by_cases hf : r ∈ s.finished
    · exact ⟨by simpa [stepEvent, handleFailure, hf] using h1,
        by simpa [stepEvent, handleFailure, hf] using h2,
        by simpa [stepEvent, handleFailure, hf] using h3⟩
    · by_cases hin : r ∈ s.inflight
      · by_cases hcond : (o.autoReconnect.getD false) = true ∧
          ((o.maxReconnectAttempts.getD 5) = 0 ∨
            s.reconnectAttempts < o.maxReconnectAttempts.getD 5)
        · have htimers : s.timers = [] := by
            by_contra ht
            exact hf (h3 ht r hin)
          refine ⟨by simpa [stepEvent, handleFailure, hf, hin, hcond] using h1,
            by simp [stepEvent, handleFailure, hf, hin, hcond, htimers], ?_⟩
          simp only [stepEvent, handleFailure, if_neg hf, if_pos hin, if_pos hcond]
          intro _ x hx
          have hxr : x = r := mem_of_len_le_one h1 hx hin
          subst hxr
          exact List.mem_append_right _ (List.mem_singleton.mpr rfl)
        · refine ⟨by simpa [stepEvent, handleFailure, hf, hin, hcond] using h1,
            by simpa [stepEvent, handleFailure, hf, hin, hcond] using h2, ?_⟩
          simp only [stepEvent, handleFailure, if_neg hf, if_pos hin, if_neg hcond]
          intro ht x hx
          exact List.mem_append_left _ (h3 ht x hx)
      · refine ⟨by simpa [stepEvent, handleFailure, hf, hin] using h1,
          by simpa [stepEvent, handleFailure, hf, hin] using h2, ?_⟩
        simp only [stepEvent, handleFailure, if_neg hf, if_neg hin]
        intro ht x hx
        exact List.mem_append_left _ (h3 ht x hx)
  | timerFire t =>
    by_cases ht : s.timers.any (fun tr => tr.id = t)
    · refine ⟨by simp [stepEvent, handleTimerFire, ht, connect, disconnect],
        by simp [stepEvent, handleTimerFire, ht, connect, disconnect], ?_⟩
      simp [stepEvent, handleTimerFire, ht, connect, disconnect]
    · exact ⟨by simpa [stepEvent, handleTimerFire, ht] using h1,
        by simpa [stepEvent, handleTimerFire, ht] using h2,
        by simpa [stepEvent, handleTimerFire, ht] using h3⟩

theorem stateInv_run (o : SSEClientOptions) (s : ClientState)
    (evs : List TransportEvent) (hs : StateInv s) :
    StateInv (runEvents o s evs).1 := by
  induction evs generalizing s with
  | nil => exact hs
  | cons e es ih =>
    simp only [runEvents]
    exact ih _ (stateInv_step o s e hs)

/-- C5: across every sequence of lifecycle events, at most one live abort
controller and at most one pending retry timer exist; `connect` performs a
close-without-reset first (clearing the timer and keeping the attempt count,
ending with exactly one in-flight request) and `disconnect` cancels both the
request and the timer, clearing the attempt count exactly when
`resetAttempts` is true. -/
theorem sse_single_request_single_timer (o : SSEClientOptions)
    (evs : List TransportEvent) (s : ClientState) :
    (runEvents o initClient evs).1.inflight.length ≤ 1 ∧
    (runEvents o initClient evs).1.timers.length ≤ 1 ∧
    (connect s).timers = [] ∧
    (connect s).inflight = [s.nextId] ∧
    (connect s).reconnectAttempts = s.reconnectAttempts ∧
    (∀ b, (disconnect b s).inflight = [] ∧ (disconnect b s).timers = []) ∧
    (disconnect true s).reconnectAttempts = 0 ∧
    (disconnect false s).reconnectAttempts = s.reconnectAttempts := by
  have hinit : StateInv initClient := by
    refine ⟨by simp [initClient], by simp [initClient], ?_⟩
    simp [initClient]
  have hinv := stateInv_run o initClient evs hinit
  exact ⟨hinv.1, hinv.2.1, rfl, rfl, rfl, fun b => ⟨rfl, rfl⟩, rfl, rfl⟩

/-- C2: on a failure of a live, unsettled request, a retry timer is armed if
and only if auto-reconnect is enabled and the ceiling is zero or the attempt
count is strictly below it; arming appends one timer carrying the configured
delay and increments the attempt count by one, otherwise state is unchanged
apart from settling the request; at the ceiling no retry is scheduled; and a
successful open resets the attempt count to zero. -/
theorem sse_retry_policy (o : SSEClientOptions) (s : ClientState) (r : Nat)
    (h1 : r ∈ s.inflight) (h2 : r ∉ s.finished) :
    ((handleFailure o r s).1.timers.length > s.timers.length ↔
      ((o.autoReconnect.getD false) = true ∧
        ((o.maxReconnectAttempts.getD 5) = 0 ∨
          s.reconnectAttempts < o.maxReconnectAttempts.getD 5))) ∧
    (((o.autoReconnect.getD false) = true ∧
        ((o.maxReconnectAttempts.getD 5) = 0 ∨
          s.reconnectAttempts < o.maxReconnectAttempts.getD 5)) →
      (handleFailure o r s).1.reconnectAttempts = s.reconnectAttempts + 1 ∧
      (handleFailure o r s).1.timers =
        s.timers ++ [⟨s.nextId, o.reconnectDelay.getD 3000⟩] ∧
      (handleFailure o r s).2 = [.error]) ∧
    (¬((o.autoReconnect.getD false) = true ∧
        ((o.maxReconnectAttempts.getD 5) = 0 ∨
          s.reconnectAttempts < o.maxReconnectAttempts.getD 5)) →
      (handleFailure o r s).1.timers = s.timers ∧
      (handleFailure o r s).1.reconnectAttempts = s.reconnectAttempts ∧
      (handleFailure o r s).2 = [.error]) ∧
    ((o.maxReconnectAttempts.getD 5) ≠ 0 →
      o.maxReconnectAttempts.getD 5 ≤ s.reconnectAttempts →
      (handleFailure o r s).1.timers = s.timers) ∧
    (handleOpen r s).1.reconnectAttempts = 0 ∧
    (handleOpen r s).2 = [.opened] := by
  by_cases hcond : (o.autoReconnect.getD false) = true ∧
      ((o.maxReconnectAttempts.getD 5) = 0 ∨
        s.reconnectAttempts < o.maxReconnectAttempts.getD 5)
  · refine ⟨?_, ?_, ?_, ?_, ?_, ?_⟩
    · simp [handleFailure, h1, h2, hcond]
    · intro _
      refine ⟨?_, ?_, ?_⟩ <;> simp [handleFailure, h1, h2, hcond]
    · intro hn
      exact absurd hcond hn
    · intro hm0 hge
      rcases hcond.2 with hz | hlt
      · exact absurd hz hm0
      · omega
    · simp [handleOpen, h2]
    · simp [handleOpen, h2]
  · refine ⟨?_, ?_, ?_, ?_, ?_, ?_⟩
    · simp [handleFailure, h1, h2, hcond]
    · intro hy
      exact absurd hy hcond
    · intro _
      refine ⟨?_, ?_, ?_⟩ <;> simp [handleFailure, h1, h2, hcond]
    · intro hm0 hge
      simp [handleFailure, h1, h2, hcond]
    · simp [handleOpen, h2]
    · simp [handleOpen, h2]

/-- Witness for C2: with ceiling 2 and two attempts already used, a further
failure of the live request arms no timer; with zero attempts used it arms
one and increments the count. -/
theorem sse_retry_policy_witness :
    (0 : Nat) ∈ [(0 : Nat)] ∧ (0 : Nat) ∉ ([] : List Nat) ∧
    (handleFailure
        { url := "u".data, autoReconnect := some true, maxReconnectAttempts := some 2 } 0
        { inflight := [0], timers := [], reconnectAttempts := 2, finished := [], nextId := 1 }).1.timers =
      [] ∧
    (handleFailure
        { url := "u".data, autoReconnect := some true, maxReconnectAttempts := some 2 } 0
        { inflight := [0], timers := [], reconnectAttempts := 0, finished := [], nextId := 1 }).1.reconnectAttempts =
      1 := by
  refine ⟨by simp, by simp, ?_, ?_⟩
  · exact ((sse_retry_policy
      { url := "u".data, autoReconnect := some true, maxReconnectAttempts := some 2 } 
      { inflight := [0], timers := [], reconnectAttempts := 2, finished := [], nextId := 1 }
      0 (by simp) (by simp)).2.2.2.1 (by simp) (by simp))
  · exact (((sse_retry_policy
      { url := "u".data, autoReconnect := some true, maxReconnectAttempts := some 2 } 
      { inflight := [0], timers := [], reconnectAttempts := 0, finished := [], nextId := 1 }
      0 (by simp) (by simp)).2.1 (by simp)).1)

/-- C4: after `disconnect`, a failure of the torn-down request is silently
swallowed — no callback at all fires for it and no retry timer is armed — and
the only callback the stream-end race can still produce is a single close. -/
theorem sse_disconnect_no_error (o : SSEClientOptions) (s : ClientState)
    (reset : Bool) (r : Nat) :
    (stepEvent o (disconnect reset s) (.failure r)).2 = [] ∧
    (stepEvent o (disconnect reset s) (.failure r)).1.timers = [] ∧
    Callback.error ∉ (stepEvent o (disconnect reset s) (.streamEnd r)).2 ∧
    ((stepEvent o (disconnect reset s) (.streamEnd r)).2 = [] ∨
      (stepEvent o (disconnect reset s) (.streamEnd r)).2 = [.closed]) := by
  by_cases hf : r ∈ s.finished
  · refine ⟨?_, ?_, ?_, ?_⟩
    · simp [stepEvent, handleFailure, disconnect, hf]
    · simp [stepEvent, handleFailure, disconnect, hf]
    · simp [stepEvent, handleStreamEnd, disconnect, hf]
    · left
      simp [stepEvent, handleStreamEnd, disconnect, hf]
  · refine ⟨?_, ?_, ?_, ?_⟩
    · simp [stepEvent, handleFailure, disconnect, hf]
    · simp [stepEvent, handleFailure, disconnect, hf]
    · simp [stepEvent, handleStreamEnd, disconnect, hf]
    · right
      simp [stepEvent, handleStreamEnd, disconnect, hf]

/-- C9: a clean end of stream for an unsettled request fires exactly the
close callback, never the error callback, leaves the timers and the attempt
count untouched (so no reconnect is scheduled regardless of the
auto-reconnect setting), and settles the request so a later failure of it is
silent. -/
theorem sse_stream_end_clean_close (o : SSEClientOptions) (s : ClientState)
    (r : Nat) (h : r ∉ s.finished) :
    (handleStreamEnd r s).2 = [.closed] ∧
    Callback.error ∉ (handleStreamEnd r s).2 ∧
    (handleStreamEnd r s).1.timers = s.timers ∧
    (handleStreamEnd r s).1.reconnectAttempts = s.reconnectAttempts ∧
    (handleStreamEnd r s).1.inflight = s.inflight ∧
    (handleStreamEnd r s).1.finished = s.finished ++ [r] ∧
    (stepEvent o (handleStreamEnd r s).1 (.failure r)).2 = [] := by
  refine ⟨?_, ?_, ?_, ?_, ?_, ?_, ?_⟩ <;>
    simp [handleStreamEnd, h, stepEvent, handleFailure]

/-- Witness for C9 from the initial client state. -/
theorem sse_stream_end_clean_close_witness :
    (0 : Nat) ∉ initClient.finished ∧
      (handleStreamEnd 0 initClient).2 = [Callback.closed] := by
  refine ⟨by simp [initClient], ?_⟩
  exact (sse_stream_end_clean_close { url := "u".data } initClient 0
    (by simp [initClient])).1

theorem lookup_map_set (k v : List Char) (hs : List (List Char × List Char))
    (h : hs.any (fun p => p.1 = k) = true) :
    lookupHeader (hs.map (fun p => if p.1 = k then (k, v) else p)) k = some v := by
  induction hs with
  | nil => cases h
  | cons p hs ih =>
    by_cases hp : p.1 = k
    · rw [List.map_cons, if_pos hp]
      simp [lookupHeader]
    · have h2 : hs.any (fun q => q.1 = k) = true := by
        simpa [List.any_cons, hp] using h
      rw [List.map_cons, if_neg hp]
      simp only [lookupHeader, if_neg hp]
      exact ih h2

theorem lookup_map_other (k v k2 : List Char) (hs : List (List Char × List Char))
    (hk : k2 ≠ k) :
    lookupHeader (hs.map (fun p => if p.1 = k then (k, v) else p)) k2 =
      lookupHeader hs k2 := by
  induction hs with
  | nil => rfl
  | cons p hs ih =>
    by_cases hp : p.1 = k
    · rw [List.map_cons, if_pos hp]
      have hne : ¬((k, v).1 = k2) := fun hh => hk hh.symm
      have hne2 : ¬(p.1 = k2) := by rw [hp]; exact fun hh => hk hh.symm
      simp only [lookupHeader, if_neg hne, if_neg hne2]
      exact ih
    · rw [List.map_cons, if_neg hp]
      by_cases hpk : p.1 = k2
      · simp only [lookupHeader, if_pos hpk]
      · simp only [lookupHeader, if_neg hpk]
        exact ih

theorem lookup_append_single (k v : List Char) (hs : List (List Char × List Char))
    (h : hs.any (fun p => p.1 = k) = false) :
    lookupHeader (hs ++ [(k, v)]) k = some v := by
  induction hs with
  | nil => simp [lookupHeader]
  | cons p hs ih =>
    have hp : ¬(p.1 = k) := by
      intro hp
      simp [List.any_cons, hp] at h
    have h2 : hs.any (fun q => q.1 = k) = false := by
      simpa [List.any_cons, hp] using h
    rw [List.cons_append]
    simp only [lookupHeader, if_neg hp]
    exact ih h2

theorem lookup_append_other (k v k2 : List Char) (hs : List (List Char × List Char))
    (hk : k2 ≠ k) :
    lookupHeader (hs ++ [(k, v)]) k2 = lookupHeader hs k2 := by
  induction hs with
  | nil =>
    have hne : ¬((k, v).1 = k2) := fun hh => hk hh.symm
    simp [lookupHeader, hne]
  | cons p hs ih =>
    by_cases hpk : p.1 = k2
    · rw [List.cons_append]
      simp only [lookupHeader, if_pos hpk]
    · rw [List.cons_append]
      simp only [lookupHeader, if_neg hpk]
      exact ih

theorem lookupHeader_insert_self (hs : List (List Char × List Char)) (k v : List Char) :
    lookupHeader (insertHeader hs k v) k = some v := by
  by_cases h : hs.any (fun p => p.1 = k)
  · simp only [insertHeader, if_pos h]
    exact lookup_map_set k v hs h
  · simp only [insertHeader, if_neg h]
    exact lookup_append_single k v hs (Bool.eq_false_iff.mpr h)

theorem lookupHeader_insert_other (hs : List (List Char × List Char))
    (k v k2 : List Char) (hk : k2 ≠ k) :
    lookupHeader (insertHeader hs k v) k2 = lookupHeader hs k2 := by
  by_cases h : hs.any (fun p => p.1 = k)
  · simp only [insertHeader, if_pos h]
    exact lookup_map_other k v k2 hs hk
  · simp only [insertHeader, if_neg h]
    exact lookup_append_other k v k2 hs hk

theorem lookup_merge_absent (base extra : List (List Char × List Char))
    (k : List Char) (h : ∀ p ∈ extra, ¬(p.1 = k)) :
    lookupHeader (mergeHeaders base extra) k = lookupHeader base k := by
  induction extra generalizing base with
  | nil => rfl
  | cons q extra ih =>
    have hq : ¬(q.1 = k) := h q (List.mem_cons_self q extra)
    have h2 : ∀ p ∈ extra, ¬(p.1 = k) := fun p hp => h p (List.mem_cons_of_mem q hp)
    simp only [mergeHeaders, List.foldl_cons]
    rw [show (extra.foldl (fun acc p => insertHeader acc p.1 p.2)
        (insertHeader base q.1 q.2)) =
      mergeHeaders (insertHeader base q.1 q.2) extra from rfl]
    rw [ih _ h2]
    exact lookupHeader_insert_other base q.1 q.2 k (fun hh => hq hh.symm)

theorem lookup_merge_last (base l1 l2 : List (List Char × List Char))
    (k v : List Char) (h : ∀ p ∈ l2, ¬(p.1 = k)) :
    lookupHeader (mergeHeaders base (l1 ++ (k, v) :: l2)) k = some v := by
  have hsplit : mergeHeaders base (l1 ++ (k, v) :: l2) =
      mergeHeaders (insertHeader (mergeHeaders base l1) k v) l2 := by
    simp [mergeHeaders, List.foldl_append]
  rw [hsplit, lookup_merge_absent _ _ _ h]
  exact lookupHeader_insert_self _ k v

/-- C3 counterexample: a POST whose `body` option is the empty string and
whose caller headers override `Accept`.  The claim predicts the string body
is passed through unchanged and the request carries
`Accept: text/event-stream`; the code drops the falsy body entirely and the
caller's `Accept` wins the spread. -/
theorem sse_request_build_counterexample :
    (buildRequest
        { url := "u".data, method := some "POST".data, body := some (.str []),
          headers := some [("Accept".data, "x".data)] }).bodyStr = none ∧
    (buildRequest
        { url := "u".data, method := some "POST".data, body := some (.str []),
          headers := some [("Accept".data, "x".data)] }).bodyStr ≠ some [] ∧
    lookupHeader (buildRequest
        { url := "u".data, method := some "POST".data, body := some (.str []),
          headers := some [("Accept".data, "x".data)] }).headers "Accept".data =
      some "x".data ∧
    some "x".data ≠ some "text/event-stream".data := by
  refine ⟨by decide, by decide, by decide, by decide⟩

/-- C3 (amended): every request carries the default headers
`Accept: text/event-stream` and `Cache-Control: no-cache` unless a
caller-supplied header overrides them, and caller-supplied headers are merged
in with the caller winning conflicts; for a POST request with a truthy body,
a non-empty string body is passed through unchanged, a non-string body is
JSON-encoded, and `Content-Type: application/json` is set; an empty-string
body is treated as no body. -/
theorem sse_request_build_amended (o : SSEClientOptions)
    (k v : List Char) (l1 l2 : List (List Char × List Char)) :
    ((∀ p ∈ o.headers.getD [], ¬(p.1 = "Accept".data)) →
      lookupHeader (buildRequest o).headers "Accept".data =
        some "text/event-stream".data) ∧
    ((∀ p ∈ o.headers.getD [], ¬(p.1 = "Cache-Control".data)) →
      lookupHeader (buildRequest o).headers "Cache-Control".data =
        some "no-cache".data) ∧
    (o.headers.getD [] = l1 ++ (k, v) :: l2 → (∀ p ∈ l2, ¬(p.1 = k)) →
      k ≠ "Content-Type".data →
      lookupHeader (buildRequest o).headers k = some v) ∧
    (∀ s, o.method.getD "GET".data = "POST".data → o.body = some (.str s) →
      s ≠ [] → (buildRequest o).bodyStr = some s) ∧
    (∀ j, o.method.getD "GET".data = "POST".data → o.body = some (.obj j) →
      (buildRequest o).bodyStr = some (jsonStringify j)) ∧
    (o.method.getD "GET".data = "POST".data → truthyBody o.body = true →
      lookupHeader (buildRequest o).headers "Content-Type".data =
        some "application/json".data) ∧
    (o.body = some (.str []) → (buildRequest o).bodyStr = none) ∧
    (buildRequest o).method = o.method.getD "GET".data := by
  by_cases hp : o.method.getD "GET".data = "POST".data ∧ truthyBody o.body = true
  · have hbr : buildRequest o =
        { method := o.method.getD "GET".data
          headers := insertHeader
            (mergeHeaders
              [("Accept".data, "text/event-stream".data),
               ("Cache-Control".data, "no-cache".data)] (o.headers.getD []))
            "Content-Type".data "application/json".data
          bodyStr :=
            match o.body with
            | some (.str s) => some s
            | some (.obj j) => some (jsonStringify j)
            | none => none } := by
      simp only [buildRequest, if_pos hp]
    refine ⟨?_, ?_, ?_, ?_, ?_, ?_, ?_, ?_⟩
    · intro h
      rw [hbr]
      rw [lookupHeader_insert_other _ _ _ _ (by decide)]
      rw [lookup_merge_absent _ _ _ h]
      rfl
    · intro h
      rw [hbr]
      rw [lookupHeader_insert_other _ _ _ _ (by decide)]
      rw [lookup_merge_absent _ _ _ h]
      rfl
    · intro hh hl2 hk
      rw [hbr]
      rw [lookupHeader_insert_other _ _ _ _ hk]
      rw [hh]
      exact lookup_merge_last _ l1 l2 k v hl2
    · intro s hm hb hs
      rw [hbr, hb]
    · intro j hm hb
      rw [hbr, hb]
    · intro hm ht
      rw [hbr]
      exact lookupHeader_insert_self _ _ _
    · intro hb
      exfalso
      rw [hb] at hp
      simp [truthyBody] at hp
    · rw [hbr]
  · have hbr : buildRequest o =
        { method := o.method.getD "GET".data
          headers := mergeHeaders
            [("Accept".data, "text/event-stream".data),
             ("Cache-Control".data, "no-cache".data)] (o.headers.getD [])
          bodyStr := none } := by
      simp only [buildRequest, if_neg hp]
    refine ⟨?_, ?_, ?_, ?_, ?_, ?_, ?_, ?_⟩
    · intro h
      rw [hbr, lookup_merge_absent _ _ _ h]
      rfl
    · intro h
      rw [hbr, lookup_merge_absent _ _ _ h]
      rfl
    · intro hh hl2 hk
      rw [hbr, hh]
      exact lookup_merge_last _ l1 l2 k v hl2
    · intro s hm hb hs
      exfalso
      exact hp ⟨hm, by simp [truthyBody, hb, hs]⟩
    · intro j hm hb
      exfalso
      exact hp ⟨hm, by simp [truthyBody, hb]⟩
    · intro hm ht
      exfalso
      exact hp ⟨hm, ht⟩
    · intro hb
      rw [hbr]
    · rw [hbr]

/-- Witness for C3 (amended) at a concrete POST with an object body and a
custom caller header. -/
theorem sse_request_build_amended_witness :
    lookupHeader (buildRequest
        { url := "u".data, method := some "POST".data,
          body := some (.obj (.obj [("a".data, .num 1)])),
          headers := some [("X-Auth".data, "t".data)] }).headers "Accept".data =
      some "text/event-stream".data ∧
    lookupHeader (buildRequest
        { url := "u".data, method := some "POST".data,
          body := some (.obj (.obj [("a".data, .num 1)])),
          headers := some [("X-Auth".data, "t".data)] }).headers "X-Auth".data =
      some "t".data ∧
    lookupHeader (buildRequest
        { url := "u".data, method := some "POST".data,
          body := some (.obj (.obj [("a".data, .num 1)])),
          headers := some [("X-Auth".data, "t".data)] }).headers "Content-Type".data =
      some "application/json".data ∧
    (buildRequest
        { url := "u".data, method := some "POST".data,
          body := some (.obj (.obj [("a".data, .num 1)])),
          headers := some [("X-Auth".data, "t".data)] }).bodyStr =
      some (jsonStringify (.obj [("a".data, .num 1)])) := by
  have h := sse_request_build_amended
    { url := "u".data, method := some "POST".data,
      body := some (.obj (.obj [("a".data, .num 1)])),
      headers := some [("X-Auth".data, "t".data)] }
    "X-Auth".data "t".data [] []
  refine ⟨h.1 (by decide), ?_, h.2.2.2.2.2.1 rfl (by decide), ?_⟩
  · exact h.2.2.1 rfl (by simp) (by decide)
  · exact h.2.2.2.2.1 (.obj [("a".data, .num 1)]) rfl rfl
